import Mathlib

/-!
Shallow embedding of the KeypadFlasher firmware core (C sources under
Keypad.Firmware and its newer src variant): the HID dispatcher
(hid.c), the button engine (buttons.c), the two encoder engine variants
(encoder.c), the consumer-control service state machine (hid.c) and the
LED breathing animation step (led.c).  Stateful C code is modelled by
explicit state passing; calls into the USB HID transport and the LED
layer are recorded as an event trace.  Machine integers are Nat or Int,
with explicit wrapping where the C performs a narrowing cast.
-/

/-- Trigger modes, from hid_trigger_mode_t in hid.h. -/
inductive hid_trigger_mode_t where
  | press
  | release
  | click
deriving DecidableEq, Repr

/-- Pointer event kinds, from hid_pointer_event_type_t in hid.h. -/
inductive hid_pointer_event_type_t where
  | moveUp
  | moveDown
  | moveLeft
  | moveRight
  | leftClick
  | rightClick
  | scrollUp
  | scrollDown
deriving DecidableEq, Repr

/-- Step kinds dispatched by the switch on step->kind in
hid_run_key_sequence (hid.c): HID_STEP_KEY, HID_STEP_PAUSE,
HID_STEP_MOUSE, HID_STEP_FUNCTION. -/
inductive hid_step_kind_t where
  | key
  | pause
  | mouse
  | function
deriving DecidableEq, Repr

/-- One step of a key sequence, flattening the fields hid.c reads from
hid_key_step_t: keycode, modifiers, hold_ms, gap_ms for key steps,
pointer data for mouse steps and the function pointer (modelled as an
optional numeric tag) with its repeat value for function steps.  All
uint8_t fields are modelled as Nat values below 256. -/
structure hid_key_step_t where
  kind : hid_step_kind_t
  keycode : Nat
  modifiers : Nat
  hold_ms : Nat
  gap_ms : Nat
  pointer_type : hid_pointer_event_type_t
  pointer_value : Nat
  functionPointer : Option Nat
  function_value : Nat
deriving DecidableEq, Repr

/-- Modifier keycode from the USB HID keyboard transport header
(external to the core), conventional Arduino value. -/
def KEY_LEFT_CTRL : Nat := 128

/-- Modifier keycode from the USB HID keyboard transport header. -/
def KEY_LEFT_SHIFT : Nat := 129

/-- Modifier keycode from the USB HID keyboard transport header. -/
def KEY_LEFT_ALT : Nat := 130

/-- Modifier keycode from the USB HID keyboard transport header. -/
def KEY_LEFT_GUI : Nat := 131

/-- Mouse button constant from the transport header. -/
def MOUSE_LEFT : Nat := 1

/-- Mouse button constant from the transport header. -/
def MOUSE_RIGHT : Nat := 2

/-- The C cast (int8_t)v applied to a uint8_t value v. -/
def to_int8 (v : Nat) : Int :=
  if v < 128 then (v : Int) else (v : Int) - 256

/-- A call made by the dispatcher into the HID transport, the platform
delay primitive, a function-pointer handler, or the LED layer.  One
dispatch produces a list of these, in order. -/
inductive transport_call_t where
  | keyboardPress (keycode : Nat)
  | keyboardReleaseAll
  | delayMs (ms : Nat)
  | mouseMove (dx dy : Int)
  | mouseClick (button : Nat)
  | mouseScroll (amount : Int)
  | functionCall (tag : Nat) (mode : hid_trigger_mode_t)
  | ledPressKey (led : Int)
deriving DecidableEq, Repr

/-- Whether a recorded call is a timing delay (not a transport call). -/
def transport_call_t.is_delay : transport_call_t → Bool
  | .delayMs _ => true
  | _ => false

/-- The body of the per-step switch in hid_run_key_sequence (hid.c
lines 33-120), as the trace of calls one step produces. -/
def hid_run_key_step (step : hid_key_step_t) (mode : hid_trigger_mode_t) :
    List transport_call_t :=
  match step.kind with
  | .pause =>
      if step.gap_ms > 0 then [.delayMs step.gap_ms] else []
  | .mouse =>
      (match step.pointer_type with
       | .moveUp => [.mouseMove 0 (-(to_int8 step.pointer_value))]
       | .moveDown => [.mouseMove 0 (to_int8 step.pointer_value)]
       | .moveLeft => [.mouseMove (-(to_int8 step.pointer_value)) 0]
       | .moveRight => [.mouseMove (to_int8 step.pointer_value) 0]
       | .leftClick => [.mouseClick MOUSE_LEFT]
       | .rightClick => [.mouseClick MOUSE_RIGHT]
       | .scrollUp => [.mouseScroll (to_int8 step.pointer_value)]
       | .scrollDown => [.mouseScroll (-(to_int8 step.pointer_value))])
      ++ (if step.gap_ms > 0 then [.delayMs step.gap_ms] else [])
  | .function =>
      (match step.functionPointer with
       | some f =>
           List.replicate (if step.function_value = 0 then 1 else step.function_value)
             (.functionCall f mode)
       | none => [])
      ++ (if step.gap_ms > 0 then [.delayMs step.gap_ms] else [])
  | .key =>
      (if step.modifiers &&& 1 ≠ 0 then [transport_call_t.keyboardPress KEY_LEFT_CTRL] else [])
      ++ (if step.modifiers &&& 2 ≠ 0 then [transport_call_t.keyboardPress KEY_LEFT_SHIFT] else [])
      ++ (if step.modifiers &&& 4 ≠ 0 then [transport_call_t.keyboardPress KEY_LEFT_ALT] else [])
      ++ (if step.modifiers &&& 8 ≠ 0 then [transport_call_t.keyboardPress KEY_LEFT_GUI] else [])
      ++ (if step.keycode ≠ 0 then [transport_call_t.keyboardPress step.keycode] else [])
      ++ [.delayMs (if step.hold_ms = 0 then 10 else step.hold_ms), .keyboardReleaseAll]
      ++ (if step.gap_ms > 0 then [.delayMs step.gap_ms] else [])

/-- A key sequence: a steps array plus a length field, as in
hid_key_sequence_t (hid.h); only the first length entries are run. -/
structure hid_key_sequence_t where
  steps : List hid_key_step_t
  length : Nat
deriving DecidableEq, Repr

/-- hid_run_key_sequence (hid.c lines 21-122): release-mode calls
return immediately, otherwise the first length steps run in order. -/
def hid_run_key_sequence (sequence : hid_key_sequence_t)
    (mode : hid_trigger_mode_t) : List transport_call_t :=
  if mode = .release then []
  else ((sequence.steps.take sequence.length).map
          (fun s => hid_run_key_step s mode)).flatten

/-- Binding variants, from hid_binding_type_t in hid.h:
HID_BINDING_SEQUENCE, HID_BINDING_MOUSE, HID_BINDING_FUNCTION,
HID_BINDING_NULL. -/
inductive hid_binding_type_t where
  | sequence
  | mouse
  | function
  | null
deriving DecidableEq, Repr

/-- A HID binding (hid_binding_t in hid.h): the variant tag together
with the union members the dispatcher and the sample configuration
read: the key sequence and the function pointer (as a numeric tag).
The mouse-macro payload is never read by any code under src and is
omitted. -/
structure hid_binding_t where
  type : hid_binding_type_t
  sequence : hid_key_sequence_t
  functionPointer : Option Nat
deriving DecidableEq, Repr

/-- hid_run_binding (hid.c lines 124-135): only the SEQUENCE variant
does anything; NULL and the default arm (MOUSE, FUNCTION) fall through
with no calls. -/
def hid_run_binding (binding : hid_binding_t) (mode : hid_trigger_mode_t) :
    List transport_call_t :=
  match binding.type with
  | .sequence => hid_run_key_sequence binding.sequence mode
  | _ => []

/-- A button binding (button_binding_t in configuration_data.h). -/
structure button_binding_t where
  pin : Nat
  active_low : Bool
  led_index : Int
  bootloader_on_boot : Bool
  bootloader_chord_member : Bool
  function : hid_binding_t
deriving DecidableEq, Repr

/-- An encoder binding (encoder_binding_t in configuration_data.h). -/
structure encoder_binding_t where
  pin_a : Nat
  pin_b : Nat
  clockwise : hid_binding_t
  counter_clockwise : hid_binding_t
deriving DecidableEq, Repr

/-- hid_handle_button (hid.c lines 200-224): a bounds check against
button_binding_count, then the LED pressed-state update for a mapped
LED (led_presskey with the LED index on press, -1 on release), then
hid_run_binding on the button's binding.  The binding table is passed
explicitly; button_binding_count is its length. -/
def hid_handle_button (button_bindings : List button_binding_t)
    (button_index : Nat) (mode : hid_trigger_mode_t) : List transport_call_t :=
  if h : button_index < button_bindings.length then
    let binding := button_bindings.get ⟨button_index, h⟩
    (if 0 ≤ binding.led_index then
       (if mode = .press then [transport_call_t.ledPressKey binding.led_index]
        else if mode = .release then [transport_call_t.ledPressKey (-1)]
        else [])
     else [])
    ++ hid_run_binding binding.function mode
  else []

/-- hid_handle_encoder (hid.c lines 226-236): bounds check against
encoder_binding_count, then the directional binding runs with
HID_TRIGGER_CLICK. -/
def hid_handle_encoder (encoder_bindings : List encoder_binding_t)
    (encoder_index : Nat) (clockwise : Bool) : List transport_call_t :=
  if h : encoder_index < encoder_bindings.length then
    let binding := encoder_bindings.get ⟨encoder_index, h⟩
    hid_run_binding (if clockwise then binding.clockwise else binding.counter_clockwise)
      .click
  else []

/-- Consumer-control usage code HID_CONSUMER_VOLUME_INCREMENT (0x00E9). -/
def HID_CONSUMER_VOLUME_INCREMENT : Nat := 233

/-- Consumer-control usage code HID_CONSUMER_VOLUME_DECREMENT (0x00EA). -/
def HID_CONSUMER_VOLUME_DECREMENT : Nat := 234

/-- The consumer-control service state (hid.c statics
consumer_volume_pending_s, an int, and consumer_phase_s: 0 idle,
1 waiting to release). -/
structure consumer_state_t where
  pending : Int
  phase : Nat
deriving DecidableEq, Repr

/-- hid_service (hid.c lines 238-265).  The result of the single
Keyboard_consumer_try_send attempt a call may make is the external
input sendOk; the returned list records the codes attempted, in
order. -/
def hid_service (st : consumer_state_t) (sendOk : Bool) :
    consumer_state_t × List Nat :=
  if st.phase = 1 then
    if sendOk then ({ st with phase := 0 }, [0]) else (st, [0])
  else if st.pending > 0 then
    if sendOk then
      ({ pending := st.pending - 1, phase := 1 }, [HID_CONSUMER_VOLUME_INCREMENT])
    else (st, [HID_CONSUMER_VOLUME_INCREMENT])
  else if st.pending < 0 then
    if sendOk then
      ({ pending := st.pending + 1, phase := 1 }, [HID_CONSUMER_VOLUME_DECREMENT])
    else (st, [HID_CONSUMER_VOLUME_DECREMENT])
  else (st, [])

/-- A single key step with no modifiers, as in the sample
configuration.c entries. -/
def sample_key_step (keycode : Nat) : hid_key_step_t :=
  { kind := .key, keycode := keycode, modifiers := 0, hold_ms := 10,
    gap_ms := 0, pointer_type := .moveUp, pointer_value := 0,
    functionPointer := none, function_value := 0 }

/-- The key sequence bound to button 0 in the sample configuration.c:
one step, keycode 'a' (97), hold 10, gap 0. -/
def sample_sequence_a : hid_key_sequence_t :=
  { steps := [sample_key_step 97], length := 1 }

/-- Function-pointer tag standing for hid_consumer_volume_up. -/
def TAG_VOLUME_UP : Nat := 1

/-- Function-pointer tag standing for hid_consumer_volume_down. -/
def TAG_VOLUME_DOWN : Nat := 2

/-- The encoder binding table from the sample configuration.c (lines
76-91): one encoder whose clockwise binding is a FUNCTION binding on
hid_consumer_volume_up and counter-clockwise on
hid_consumer_volume_down. -/
def sample_encoder_bindings : List encoder_binding_t :=
  [{ pin_a := 31, pin_b := 30,
     clockwise :=
       { type := .function, sequence := { steps := [], length := 0 },
         functionPointer := some TAG_VOLUME_UP },
     counter_clockwise :=
       { type := .function, sequence := { steps := [], length := 0 },
         functionPointer := some TAG_VOLUME_DOWN } }]

/-- The button binding table from the sample configuration.c (lines
7-74): four active-low chord-member buttons with single-key sequences
for 'a', 'b', 'c', 'd'; the last has no LED mapping and is flagged
bootloader_on_boot. -/
def sample_button_bindings : List button_binding_t :=
  [{ pin := 11, active_low := true, led_index := 0,
     bootloader_on_boot := false, bootloader_chord_member := true,
     function := { type := .sequence, sequence := { steps := [sample_key_step 97], length := 1 },
                   functionPointer := none } },
   { pin := 17, active_low := true, led_index := 1,
     bootloader_on_boot := false, bootloader_chord_member := true,
     function := { type := .sequence, sequence := { steps := [sample_key_step 98], length := 1 },
                   functionPointer := none } },
   { pin := 16, active_low := true, led_index := 2,
     bootloader_on_boot := false, bootloader_chord_member := true,
     function := { type := .sequence, sequence := { steps := [sample_key_step 99], length := 1 },
                   functionPointer := none } },
   { pin := 33, active_low := true, led_index := -1,
     bootloader_on_boot := true, bootloader_chord_member := true,
     function := { type := .sequence, sequence := { steps := [sample_key_step 100], length := 1 },
                   functionPointer := none } }]

/-- Decoding a raw pin level into the active flag (buttons.c):
active_low buttons read active when the pin is low. -/
def button_active (b : button_binding_t) (level : Bool) : Bool :=
  if b.active_low then !level else level

/-- Loop body of buttons_setup (buttons.c lines 38-48), carrying the
loop index: returns the stored states and the fired (index, mode)
events, in order. -/
def buttons_setup_go (i : Nat) (rows : List (button_binding_t × Bool)) :
    List Bool × List (Nat × hid_trigger_mode_t) :=
  match rows with
  | [] => ([], [])
  | (b, level) :: rest =>
      let active := button_active b level
      let r := buttons_setup_go (i + 1) rest
      (active :: r.1,
       (if active then [(i, hid_trigger_mode_t.press)] else []) ++ r.2)

/-- buttons_setup (buttons.c lines 15-49) over the tracked bindings,
given the initially sampled raw pin levels. -/
def buttons_setup (bindings : List button_binding_t) (levels : List Bool) :
    List Bool × List (Nat × hid_trigger_mode_t) :=
  buttons_setup_go 0 (bindings.zip levels)

/-- Result of one buttons_update scan: fired events, new stored
states, and the two chord accumulators of buttons.c lines 58-59. -/
structure buttons_scan_result_t where
  events : List (Nat × hid_trigger_mode_t)
  states : List Bool
  has_bootloader_chord : Bool
  bootloader_chord_candidate : Bool
deriving DecidableEq, Repr

/-- Loop body of buttons_update (buttons.c lines 61-77), carrying the
loop index over rows of (binding, stored state, sampled level). -/
def buttons_update_go (i : Nat) (rows : List (button_binding_t × Bool × Bool)) :
    buttons_scan_result_t :=
  match rows with
  | [] =>
      { events := [], states := [], has_bootloader_chord := false,
        bootloader_chord_candidate := true }
  | (b, stored, level) :: rest =>
      let active := button_active b level
      let r := buttons_update_go (i + 1) rest
      { events :=
          (if stored ≠ active then
             [(i, if active then hid_trigger_mode_t.press else hid_trigger_mode_t.release)]
           else []) ++ r.events,
        states := active :: r.states,
        has_bootloader_chord := b.bootloader_chord_member || r.has_bootloader_chord,
        bootloader_chord_candidate :=
          (if b.bootloader_chord_member then active else true) && r.bootloader_chord_candidate }

/-- buttons_update (buttons.c lines 51-86): one polling tick over the
tracked buttons.  Returns the fired events, the new stored states and
whether bootloader entry (LED indicator then BOOT_now) is triggered:
has_bootloader_chord AND bootloader_chord_candidate. -/
def buttons_update (bindings : List button_binding_t) (states levels : List Bool) :
    List (Nat × hid_trigger_mode_t) × List Bool × Bool :=
  let r := buttons_update_go 0 (bindings.zip (states.zip levels))
  (r.events, r.states, r.has_bootloader_chord && r.bootloader_chord_candidate)

/-- The 16-entry quadrature transition table rotary_table_s shared by
both encoder.c variants, indexed by (prev<<2 | current). -/
def rotary_table_s : List Int :=
  [0, -1, 1, 0, 1, 0, 0, -1, -1, 0, 0, 1, 0, 1, -1, 0]

/-- The C cast (int8_t)x of an int value x: wrap modulo 256 into
[-128, 127]. -/
def int8_of_int (x : Int) : Int := (x + 128) % 256 - 128

/-- Per-encoder runtime state of the delta-counter variant
(src/src/Keypad.Firmware encoder.c): previous 2-bit sample and the
int8 accumulated delta. -/
structure encoder_delta_state_t where
  prev : Nat
  delta : Int
deriving DecidableEq, Repr

/-- Per-encoder runtime state of the absolute-position variant
(Keypad.Firmware encoder.c): previous 2-bit sample, long position and
long last-reported position. -/
structure encoder_pos_state_t where
  prev : Nat
  position : Int
  reported : Int
deriving DecidableEq, Repr

/-- encoder_sample (delta variant, encoder.c lines 26-35): combine the
previous and current 2-bit samples, look up the signed step and fold
it into the int8 delta. -/
def encoder_sample_delta (st : encoder_delta_state_t) (valA valB : Bool) :
    encoder_delta_state_t :=
  let new_val := (cond valA 1 0) * 2 + cond valB 1 0
  let combined := st.prev * 4 + new_val
  { prev := new_val,
    delta := int8_of_int (st.delta + rotary_table_s.getD combined 0) }

/-- encoder_sample (position variant, encoder.c lines 27-36): same
table lookup accumulated into the long absolute position. -/
def encoder_sample_pos (st : encoder_pos_state_t) (valA valB : Bool) :
    encoder_pos_state_t :=
  let new_val := (cond valA 1 0) * 2 + cond valB 1 0
  let combined := st.prev * 4 + new_val
  { prev := new_val,
    position := st.position + rotary_table_s.getD combined 0,
    reported := st.reported }

/-- The clockwise while loop of encoder_update in the delta variant
(lines 89-93): one true event and minus 4 per iteration while the
delta is at least 4. -/
def encoder_emit_cw (delta : Int) : List Bool × Int :=
  if h : 4 ≤ delta then
    let r := encoder_emit_cw (delta - 4)
    (true :: r.1, r.2)
  else ([], delta)
termination_by delta.toNat
decreasing_by
  simp_wf
  omega

/-- The counter-clockwise while loop of encoder_update in the delta
variant (lines 95-99). -/
def encoder_emit_ccw (delta : Int) : List Bool × Int :=
  if h : delta ≤ -4 then
    let r := encoder_emit_ccw (delta + 4)
    (false :: r.1, r.2)
  else ([], delta)
termination_by (-delta).toNat
decreasing_by
  simp_wf
  omega

/-- The clockwise while loop of encoder_update in the position variant
(lines 90-94): advances reported by 4 per emitted event. -/
def encoder_emit_cw_pos (position reported : Int) : List Bool × Int :=
  if h : 4 ≤ position - reported then
    let r := encoder_emit_cw_pos position (reported + 4)
    (true :: r.1, r.2)
  else ([], reported)
termination_by (position - reported).toNat
decreasing_by
  simp_wf
  omega

/-- The counter-clockwise while loop of encoder_update in the position
variant (lines 96-100). -/
def encoder_emit_ccw_pos (position reported : Int) : List Bool × Int :=
  if h : position - reported ≤ -4 then
    let r := encoder_emit_ccw_pos position (reported - 4)
    (false :: r.1, r.2)
  else ([], reported)
termination_by (reported - position).toNat
decreasing_by
  simp_wf
  omega

/-- The per-encoder event-check of the delta variant: both while
loops in order; returns the emitted events (true = clockwise) and the
final delta. -/
def encoder_check_delta (delta : Int) : List Bool × Int :=
  let cw := encoder_emit_cw delta
  let ccw := encoder_emit_ccw cw.2
  (cw.1 ++ ccw.1, ccw.2)

/-- The per-encoder event-check of the position variant; returns the
emitted events and the final reported position. -/
def encoder_check_pos (position reported : Int) : List Bool × Int :=
  let cw := encoder_emit_cw_pos position reported
  let ccw := encoder_emit_ccw_pos position cw.2
  (cw.1 ++ ccw.1, ccw.2)

/-- The event-check for loop of encoder_update in the delta variant
(lines 85-102), carrying the for-loop index: tags each encoder's
events with its index and writes back the reduced delta. -/
def encoder_update_delta_go (i : Nat) (sts : List encoder_delta_state_t) :
    List (Nat × Bool) × List encoder_delta_state_t :=
  match sts with
  | [] => ([], [])
  | st :: rest =>
      let c := encoder_check_delta st.delta
      let r := encoder_update_delta_go (i + 1) rest
      (c.1.map (fun b => (i, b)) ++ r.1, { st with delta := c.2 } :: r.2)

/-- encoder_update (delta variant, lines 73-103): sample every tracked
encoder, then run the event-check loop. -/
def encoder_update_delta (states : List encoder_delta_state_t)
    (samples : List (Bool × Bool)) :
    List (Nat × Bool) × List encoder_delta_state_t :=
  let sampled := (states.zip samples).map
    (fun p => encoder_sample_delta p.1 p.2.1 p.2.2)
  encoder_update_delta_go 0 sampled

/-- The event-check for loop of encoder_update in the position variant
(lines 88-101), carrying the for-loop index. -/
def encoder_update_pos_go (i : Nat) (sts : List encoder_pos_state_t) :
    List (Nat × Bool) × List encoder_pos_state_t :=
  match sts with
  | [] => ([], [])
  | st :: rest =>
      let c := encoder_check_pos st.position st.reported
      let r := encoder_update_pos_go (i + 1) rest
      (c.1.map (fun b => (i, b)) ++ r.1, { st with reported := c.2 } :: r.2)

/-- encoder_update (position variant, lines 76-102). -/
def encoder_update_pos (states : List encoder_pos_state_t)
    (samples : List (Bool × Bool)) :
    List (Nat × Bool) × List encoder_pos_state_t :=
  let sampled := (states.zip samples).map
    (fun p => encoder_sample_pos p.1 p.2.1 p.2.2)
  encoder_update_pos_go 0 sampled

/-- Repeated ticks of the delta variant: the per-tick event lists, in
order, for a sequence of per-tick pin samples. -/
def encoder_run_delta (states : List encoder_delta_state_t)
    (ticks : List (List (Bool × Bool))) : List (List (Nat × Bool)) :=
  match ticks with
  | [] => []
  | t :: rest =>
      let u := encoder_update_delta states t
      u.1 :: encoder_run_delta u.2 rest

/-- Repeated ticks of the position variant. -/
def encoder_run_pos (states : List encoder_pos_state_t)
    (ticks : List (List (Bool × Bool))) : List (List (Nat × Bool)) :=
  match ticks with
  | [] => []
  | t :: rest =>
      let u := encoder_update_pos states t
      u.1 :: encoder_run_pos u.2 rest

/-- Initial per-encoder states after encoder_setup in the delta
variant: prev from the initial pin sample, delta 0. -/
def encoder_init_delta (prevs : List Nat) : List encoder_delta_state_t :=
  prevs.map (fun p => { prev := p, delta := 0 })

/-- Initial per-encoder states after encoder_setup in the position
variant: prev from the initial pin sample, position 0, reported 0. -/
def encoder_init_pos (prevs : List Nat) : List encoder_pos_state_t :=
  prevs.map (fun p => { prev := p, position := 0, reported := 0 })

/-- Eight consecutive valid clockwise quadrature edges starting from
the 2-bit state 0: the cycle 0, 2, 3, 1 twice, as (pin_a, pin_b)
levels. -/
def sample_cw_edges : List (Bool × Bool) :=
  [(true, false), (true, true), (false, true), (false, false),
   (true, false), (true, true), (false, true), (false, false)]

/-- clamp_percent (led.c lines 27-30). -/
def clamp_percent (value : Nat) : Nat := if value > 100 then 100 else value

/-- One iteration of the breathing while-loop body of led_update
(led.c lines 214-238): the state is the pair of breath_percent_s and
breath_descending_s; min_percent is the already clamped
breathing_min_percent. -/
def breath_step (min_percent : Nat) (st : Nat × Bool) : Nat × Bool :=
  if st.2 then
    if min_percent < st.1 then (st.1 - 1, true) else (st.1, false)
  else
    if st.1 < 100 then (st.1 + 1, false) else (st.1, true)

/-- The breathing state set by led_init (led.c lines 129-136):
percent 100, descending. -/
def breath_init : Nat × Bool := (100, true)

/-- A function step with repeat value 2 and a positive gap, tag 7. -/
def sample_function_step : hid_key_step_t :=
  { kind := .function, keycode := 0, modifiers := 0, hold_ms := 0,
    gap_ms := 5, pointer_type := .moveUp, pointer_value := 0,
    functionPointer := some 7, function_value := 2 }

/-- Simulation relation between the two per-encoder states: same
previous sample and the position difference equals the delta. -/
def encoder_state_sim (p : encoder_pos_state_t) (d : encoder_delta_state_t) : Prop :=
  p.prev = d.prev ∧ p.position - p.reported = d.delta

/-- Simulation plus the invariant bound the event-check re-establishes. -/
def encoder_state_rel (p : encoder_pos_state_t) (d : encoder_delta_state_t) : Prop :=
  encoder_state_sim p d ∧ d.delta.natAbs ≤ 3

/-- A button binding with no LED mapping, no chord flags and a NULL
HID binding, active-high, for edge-detection scenarios. -/
def sample_plain_button : button_binding_t :=
  { pin := 1, active_low := false, led_index := -1,
    bootloader_on_boot := false, bootloader_chord_member := false,
    function := { type := .null, sequence := { steps := [], length := 0 },
                  functionPointer := none } }

/-- Claim C1: running a KeySequence binding with trigger mode Release
makes no transport calls; with Press or Click the first length steps
run in order, and a key step presses the modifier keys selected by the
0x1 Ctrl / 0x2 Shift / 0x4 Alt / 0x8 GUI bitmask, presses the primary
keycode when non-zero, waits hold_ms (10 when zero), releases all and
then waits gap_ms; the sample single step with keycode 97, hold 10 and
gap 0 yields press(97), the hold delay and release-all, with no
further transport calls in the dispatch. -/
theorem C1_key_sequence_dispatch :
    (∀ sequence, hid_run_key_sequence sequence hid_trigger_mode_t.release = []) ∧
    (∀ mode, mode ≠ hid_trigger_mode_t.release →
      (∀ sequence, hid_run_key_sequence sequence mode =
        ((sequence.steps.take sequence.length).map
          (fun s => hid_run_key_step s mode)).flatten) ∧
      (∀ step, step.kind = hid_step_kind_t.key →
        hid_run_key_step step mode =
          (([(1, KEY_LEFT_CTRL), (2, KEY_LEFT_SHIFT), (4, KEY_LEFT_ALT),
             (8, KEY_LEFT_GUI)].filter
              (fun p => decide (step.modifiers &&& p.1 ≠ 0))).map
            (fun p => transport_call_t.keyboardPress p.2))
          ++ (if step.keycode ≠ 0 then [transport_call_t.keyboardPress step.keycode] else [])
          ++ [transport_call_t.delayMs (if step.hold_ms = 0 then 10 else step.hold_ms),
              transport_call_t.keyboardReleaseAll]
          ++ (if step.gap_ms > 0 then [transport_call_t.delayMs step.gap_ms] else []))) ∧
    (hid_run_key_sequence sample_sequence_a hid_trigger_mode_t.press =
       [transport_call_t.keyboardPress 97, transport_call_t.delayMs 10,
        transport_call_t.keyboardReleaseAll] ∧
     (hid_run_key_sequence sample_sequence_a hid_trigger_mode_t.press).filter
        (fun c => !c.is_delay) =
       [transport_call_t.keyboardPress 97, transport_call_t.keyboardReleaseAll]) := by
  refine ⟨fun s => by simp [hid_run_key_sequence], fun mode h => ⟨?_, ?_⟩, by decide, by decide⟩
  · intro s
    simp [hid_run_key_sequence, h]
  · intro step hk
    simp only [hid_run_key_step, hk]
    simp only [List.filter_cons, List.filter_nil, decide_eq_true_eq, List.map]
    split_ifs <;> simp_all

theorem C1_witness :
    hid_run_key_sequence sample_sequence_a hid_trigger_mode_t.press =
      ((sample_sequence_a.steps.take sample_sequence_a.length).map
        (fun s => hid_run_key_step s hid_trigger_mode_t.press)).flatten :=
  (C1_key_sequence_dispatch.2.1 hid_trigger_mode_t.press (by decide)).1 sample_sequence_a

/-- Claim C7, as stated, fails on the code: for a function step with
repeat value 2 and gap 5 the dispatcher does not follow each
invocation with the gap wait; it performs both invocations
back-to-back and then a single delay. -/
theorem C7_counterexample :
    hid_run_key_step sample_function_step hid_trigger_mode_t.press ≠
      (List.replicate 2 [transport_call_t.functionCall 7 hid_trigger_mode_t.press,
                         transport_call_t.delayMs 5]).flatten := by decide

/-- Claim C7 amended: a function step with a bound handler invokes
it exactly max(1, function_value) times consecutively, followed by a
single wait of gap_ms after the final invocation when gap_ms is
positive. -/
theorem C7_function_step_repeat :
    ∀ (step : hid_key_step_t) (mode : hid_trigger_mode_t) (f : Nat),
      mode ≠ hid_trigger_mode_t.release →
      step.kind = hid_step_kind_t.function →
      step.functionPointer = some f →
      hid_run_key_step step mode =
        List.replicate (max 1 step.function_value) (transport_call_t.functionCall f mode)
        ++ (if step.gap_ms > 0 then [transport_call_t.delayMs step.gap_ms] else []) := by
  intro step mode f _ hk hf
  simp only [hid_run_key_step, hk, hf]
  congr 2
  rcases Nat.eq_zero_or_pos step.function_value with h0 | h0
  · simp [h0]
  · rw [if_neg (by omega)]
    omega

theorem C7_witness :
    hid_run_key_step sample_function_step hid_trigger_mode_t.press =
      List.replicate 2 (transport_call_t.functionCall 7 hid_trigger_mode_t.press)
      ++ [transport_call_t.delayMs 5] := by
  have h := C7_function_step_repeat sample_function_step hid_trigger_mode_t.press 7
    (by decide) (by decide) (by decide)
  simpa using h

/-- Claim C8: hid_handle_button with an index at or beyond the
button binding count returns with no transport call and no LED update,
and hid_handle_encoder with an index at or beyond the encoder binding
count likewise returns with no effect. -/
theorem C8_out_of_range_noop :
    (∀ (button_bindings : List button_binding_t) (index : Nat) (mode : hid_trigger_mode_t),
       button_bindings.length ≤ index → hid_handle_button button_bindings index mode = []) ∧
    (∀ (encoder_bindings : List encoder_binding_t) (index : Nat) (clockwise : Bool),
       encoder_bindings.length ≤ index →
       hid_handle_encoder encoder_bindings index clockwise = []) := by
  constructor
  · intro bs i m h
    unfold hid_handle_button
    rw [dif_neg (by omega)]
  · intro es i c h
    unfold hid_handle_encoder
    rw [dif_neg (by omega)]

theorem C8_witness :
    hid_handle_button sample_button_bindings 4 hid_trigger_mode_t.press = [] ∧
    hid_handle_encoder sample_encoder_bindings 1 true = [] :=
  ⟨C8_out_of_range_noop.1 sample_button_bindings 4 hid_trigger_mode_t.press (by decide),
   C8_out_of_range_noop.2 sample_encoder_bindings 1 true (by decide)⟩

/-- Claim C10: hid_run_binding on a binding whose variant is not
KeySequence (MouseMacro, FunctionCall or Null) performs no transport
calls for every trigger mode; consequently hid_handle_encoder on the
sample configuration, whose directional bindings are FunctionCall
variants, has no effect beyond the bounds check. -/
theorem C10_non_sequence_binding_noop :
    (∀ (binding : hid_binding_t) (mode : hid_trigger_mode_t),
       binding.type ≠ hid_binding_type_t.sequence → hid_run_binding binding mode = []) ∧
    (∀ clockwise, hid_handle_encoder sample_encoder_bindings 0 clockwise = []) := by
  constructor
  · intro b m h
    cases hb : b.type
    · exact absurd hb h
    all_goals simp [hid_run_binding, hb]
  · intro c
    cases c <;> decide

theorem C10_witness :
    hid_run_binding (sample_encoder_bindings.get ⟨0, by decide⟩).clockwise
      hid_trigger_mode_t.click = [] :=
  C10_non_sequence_binding_noop.1 _ _ (by decide)

/-- Claim C6: hid_service makes at most one send attempt per call
and never moves the pending count by more than one unit; a failed send
leaves the state unchanged; from Idle with non-zero pending it
attempts exactly one send of the matching volume code and, only on
success, moves pending one unit toward zero and enters WaitingRelease;
from WaitingRelease it attempts only the zero-code release and returns
to Idle on success. -/
theorem C6_consumer_service_state_machine :
    (∀ st sendOk, (hid_service st sendOk).2.length ≤ 1) ∧
    (∀ st sendOk, ((hid_service st sendOk).1.pending - st.pending).natAbs ≤ 1) ∧
    (∀ st, (hid_service st false).1 = st) ∧
    (∀ (st : consumer_state_t), st.phase ≠ 1 → st.pending ≠ 0 →
      (hid_service st false).2 =
        [if st.pending > 0 then HID_CONSUMER_VOLUME_INCREMENT
         else HID_CONSUMER_VOLUME_DECREMENT] ∧
      (hid_service st true).2 =
        [if st.pending > 0 then HID_CONSUMER_VOLUME_INCREMENT
         else HID_CONSUMER_VOLUME_DECREMENT] ∧
      (hid_service st true).1.phase = 1 ∧
      (hid_service st true).1.pending =
        (if st.pending > 0 then st.pending - 1 else st.pending + 1) ∧
      (hid_service st true).1.pending.natAbs + 1 = st.pending.natAbs) ∧
    (∀ (st : consumer_state_t), st.phase = 1 →
      (hid_service st false).2 = [0] ∧
      (hid_service st true).2 = [0] ∧
      (hid_service st true).1 = { st with phase := 0 }) := by
  refine ⟨?_, ?_, ?_, ?_, ?_⟩
  · intro st ok
    unfold hid_service
    split_ifs <;> simp
  · intro st ok
    unfold hid_service
    split_ifs <;> simp <;> omega
  · intro st
    unfold hid_service
    split_ifs <;> simp_all
  · intro st hphase hpend
    rcases lt_trichotomy st.pending 0 with hlt | heq | hgt
    · have hng : ¬ (st.pending > 0) := by omega
      refine ⟨?_, ?_, ?_, ?_, ?_⟩ <;> simp [hid_service, hphase, hng, hlt] <;> omega
    · exact absurd heq hpend
    · refine ⟨?_, ?_, ?_, ?_, ?_⟩ <;> simp [hid_service, hphase, hgt] <;> omega
  · intro st hphase
    refine ⟨?_, ?_, ?_⟩ <;> simp [hid_service, hphase]

theorem C6_witness :
    (hid_service { pending := 2, phase := 0 } true).2 = [HID_CONSUMER_VOLUME_INCREMENT] ∧
    (hid_service { pending := 2, phase := 0 } true).1.phase = 1 ∧
    (hid_service { pending := 2, phase := 0 } true).1.pending = 1 ∧
    (hid_service { pending := 1, phase := 1 } true).1 = { pending := 1, phase := 0 } ∧
    (hid_service { pending := 2, phase := 0 } false).1 = { pending := 2, phase := 0 } := by
  have h := C6_consumer_service_state_machine
  have h4 := h.2.2.2.1 { pending := 2, phase := 0 } (by decide) (by decide)
  have h5 := h.2.2.2.2 { pending := 1, phase := 1 } rfl
  refine ⟨?_, h4.2.2.1, ?_, h5.2.2, h.2.2.1 { pending := 2, phase := 0 }⟩
  · have := h4.2.1
    simpa using this
  · have := h4.2.2.2.1
    simpa using this

/-- The clockwise emit loop on a nonnegative delta: one event per full
4, leaving the remainder. -/
theorem encoder_emit_cw_eq (d : Int) (hd : 0 ≤ d) :
    encoder_emit_cw d = (List.replicate (d / 4).toNat true, d % 4) := by
  rw [encoder_emit_cw]
  by_cases h : 4 ≤ d
  · rw [dif_pos h, encoder_emit_cw_eq (d - 4) (by omega)]
    have h1 : ((d - 4) / 4).toNat + 1 = (d / 4).toNat := by omega
    have h2 : (d - 4) % 4 = d % 4 := by omega
    rw [h2, ← h1, List.replicate_succ]
  · rw [dif_neg h]
    have h1 : (d / 4).toNat = 0 := by omega
    have h2 : d % 4 = d := by omega
    rw [h1, h2, List.replicate_zero]
termination_by d.toNat
decreasing_by
  simp_wf
  omega

/-- The counter-clockwise emit loop on a nonpositive delta. -/
theorem encoder_emit_ccw_eq (d : Int) (hd : d ≤ 0) :
    encoder_emit_ccw d = (List.replicate ((-d) / 4).toNat false, -((-d) % 4)) := by
  rw [encoder_emit_ccw]
  by_cases h : d ≤ -4
  · rw [dif_pos h, encoder_emit_ccw_eq (d + 4) (by omega)]
    have h1 : ((-(d + 4)) / 4).toNat + 1 = ((-d) / 4).toNat := by omega
    have h2 : (-(d + 4)) % 4 = (-d) % 4 := by omega
    rw [h2, ← h1, List.replicate_succ]
  · rw [dif_neg h]
    have h1 : ((-d) / 4).toNat = 0 := by omega
    have h2 : -((-d) % 4) = d := by omega
    rw [h1, h2, List.replicate_zero]
termination_by (-d).toNat
decreasing_by
  simp_wf
  omega

/-- The clockwise emit loop does nothing below 4. -/
theorem encoder_emit_cw_of_lt (d : Int) (hd : d < 4) :
    encoder_emit_cw d = ([], d) := by
  rw [encoder_emit_cw, dif_neg (by omega)]

/-- The counter-clockwise emit loop does nothing above -4. -/
theorem encoder_emit_ccw_of_gt (d : Int) (hd : -4 < d) :
    encoder_emit_ccw d = ([], d) := by
  rw [encoder_emit_ccw, dif_neg (by omega)]

/-- Event-check characterization for a nonnegative delta. -/
theorem encoder_check_delta_nonneg (d : Int) (hd : 0 ≤ d) :
    encoder_check_delta d = (List.replicate (d / 4).toNat true, d - 4 * (d / 4)) := by
  simp only [encoder_check_delta]
  rw [encoder_emit_cw_eq d hd]
  rw [encoder_emit_ccw_of_gt (d % 4) (by omega)]
  have h2 : d % 4 = d - 4 * (d / 4) := by omega
  simp [h2]

/-- Event-check characterization for a nonpositive delta. -/
theorem encoder_check_delta_nonpos (d : Int) (hd : d ≤ 0) :
    encoder_check_delta d = (List.replicate ((-d) / 4).toNat false, d + 4 * ((-d) / 4)) := by
  simp only [encoder_check_delta]
  rw [encoder_emit_cw_of_lt d (by omega)]
  rw [encoder_emit_ccw_eq d hd]
  have h2 : -((-d) % 4) = d + 4 * ((-d) / 4) := by omega
  simp [h2]

/-- Every event the delta event-check loop emits carries an index at
least the starting loop index. -/
theorem encoder_update_delta_go_index_ge (i0 : Nat)
    (sts : List encoder_delta_state_t) :
    ∀ e ∈ (encoder_update_delta_go i0 sts).1, i0 ≤ e.1 := by
  induction sts generalizing i0 with
  | nil => simp [encoder_update_delta_go]
  | cons st rest ih =>
      intro e he
      simp only [encoder_update_delta_go, List.mem_append, List.mem_map] at he
      rcases he with ⟨b, _, rfl⟩ | he
      · exact Nat.le_refl i0
      · exact Nat.le_trans (by omega) (ih (i0 + 1) e he)

/-- The states written back by the delta event-check loop: each delta
replaced by the event-check residue. -/
theorem encoder_update_delta_go_snd (i0 : Nat)
    (sts : List encoder_delta_state_t) :
    (encoder_update_delta_go i0 sts).2 =
      sts.map (fun st => { st with delta := (encoder_check_delta st.delta).2 }) := by
  induction sts generalizing i0 with
  | nil => simp [encoder_update_delta_go]
  | cons st rest ih => simp [encoder_update_delta_go, ih]

/-- The events of the delta event-check loop carrying index i0 + k are
exactly the events of the k-th encoder's check, in order. -/
theorem encoder_update_delta_go_filter (sts : List encoder_delta_state_t)
    (i0 k : Nat) (hk : k < sts.length) :
    (encoder_update_delta_go i0 sts).1.filter (fun e => e.1 == i0 + k) =
      (encoder_check_delta (sts.get ⟨k, hk⟩).delta).1.map (fun b => (i0 + k, b)) := by
  induction sts generalizing i0 k with
  | nil => simp at hk
  | cons st rest ih =>
      cases k with
      | zero =>
          simp only [encoder_update_delta_go, List.filter_append]
          have h1 : (List.filter (fun e => e.1 == i0 + 0)
              ((encoder_check_delta st.delta).1.map (fun b => (i0, b)))) =
              (encoder_check_delta st.delta).1.map (fun b => (i0 + 0, b)) := by
            simp [List.filter_map, Function.comp_def]
          have h2 : (encoder_update_delta_go (i0 + 1) rest).1.filter
              (fun e => e.1 == i0 + 0) = [] := by
            rw [List.filter_eq_nil_iff]
            intro e he
            have := encoder_update_delta_go_index_ge (i0 + 1) rest e he
            simp only [beq_iff_eq]
            omega
          rw [h1, h2, List.append_nil]
          rfl
      | succ k' =>
          simp only [encoder_update_delta_go, List.filter_append]
          have h1 : (List.filter (fun e => e.1 == i0 + (k' + 1))
              ((encoder_check_delta st.delta).1.map (fun b => (i0, b)))) = [] := by
            rw [List.filter_eq_nil_iff]
            intro e he
            simp only [List.mem_map] at he
            rcases he with ⟨b, _, rfl⟩
            simp only [beq_iff_eq]
            omega
          have h2 := ih (i0 + 1) k' (by simpa using Nat.lt_of_succ_lt_succ hk)
          rw [h1, List.nil_append]
          have h3 : i0 + 1 + k' = i0 + (k' + 1) := by omega
          rw [h3] at h2
          rw [h2]
          rfl

/-- Claim C2: the encoder event-check emits one clockwise event and
subtracts 4 for every full +4 the accumulated delta has reached, and
symmetrically one counter-clockwise event with 4 added per full -4,
repeating within the same call; per tracked index, encoder_update
emits exactly the events of that encoder's check on its sampled delta
and stores the residue; eight consecutive valid clockwise quadrature
edges before any event-check accumulate a delta of 8 and fire exactly
two clockwise events. -/
theorem C2_encoder_detent_accumulation :
    (∀ d : Int, 0 ≤ d →
       encoder_check_delta d = (List.replicate (d / 4).toNat true, d - 4 * (d / 4))) ∧
    (∀ d : Int, d ≤ 0 →
       encoder_check_delta d = (List.replicate ((-d) / 4).toNat false, d + 4 * ((-d) / 4))) ∧
    (∀ (states : List encoder_delta_state_t) (samples : List (Bool × Bool)) (i : Nat)
       (h : i < ((states.zip samples).map
         (fun p => encoder_sample_delta p.1 p.2.1 p.2.2)).length),
       (encoder_update_delta states samples).1.filter (fun e => e.1 == i) =
         (encoder_check_delta ((((states.zip samples)).map
            (fun p => encoder_sample_delta p.1 p.2.1 p.2.2)).get ⟨i, h⟩).delta).1.map
           (fun b => (i, b)) ∧
       (encoder_update_delta states samples).2 =
         ((states.zip samples).map (fun p => encoder_sample_delta p.1 p.2.1 p.2.2)).map
           (fun st => { st with delta := (encoder_check_delta st.delta).2 })) ∧
    ((sample_cw_edges.foldl (fun st p => encoder_sample_delta st p.1 p.2)
        { prev := 0, delta := 0 }).delta = 8 ∧
     encoder_check_delta 8 = ([true, true], 0)) := by
  refine ⟨encoder_check_delta_nonneg, encoder_check_delta_nonpos, ?_, by decide, ?_⟩
  · intro states samples i h
    constructor
    · have h2 := encoder_update_delta_go_filter
        ((states.zip samples).map (fun p => encoder_sample_delta p.1 p.2.1 p.2.2)) 0 i h
      simp only [Nat.zero_add] at h2
      simpa only [encoder_update_delta] using h2
    · simpa only [encoder_update_delta] using encoder_update_delta_go_snd 0
        ((states.zip samples).map (fun p => encoder_sample_delta p.1 p.2.1 p.2.2))
  · have h8 := encoder_check_delta_nonneg 8 (by omega)
    simpa using h8

theorem C2_witness :
    (0 : Int) ≤ 8 ∧
    encoder_check_delta 8 = (List.replicate 2 true, 0) ∧
    (encoder_update_delta [{ prev := 0, delta := 7 }] [(true, false)]).1.filter
      (fun e => e.1 == 0) = [(0, true), (0, true)] := by
  refine ⟨by omega, ?_, ?_⟩
  · have h := C2_encoder_detent_accumulation.1 8 (by omega)
    simpa using h
  · have h := (C2_encoder_detent_accumulation.2.2.1
      [{ prev := 0, delta := 7 }] [(true, false)] 0 (by decide)).1
    rw [h]
    simp [encoder_sample_delta, rotary_table_s, int8_of_int, encoder_check_delta,
      encoder_emit_cw, encoder_emit_ccw]

/-- Table entries are always -1, 0 or 1. -/
theorem rotary_table_abs_le (c : Nat) : (rotary_table_s.getD c 0).natAbs ≤ 1 := by
  by_cases h : c < 16
  · interval_cases c <;> decide
  · rw [List.getD_eq_default]
    · decide
    · simp only [rotary_table_s, List.length_cons, List.length_nil]
      omega

/-- The int8 cast is the identity inside the representable range. -/
theorem int8_of_int_eq (x : Int) (h1 : -128 ≤ x) (h2 : x ≤ 127) :
    int8_of_int x = x := by
  unfold int8_of_int
  omega

/-- One pin sample preserves the simulation when the delta is small
enough that the int8 accumulation cannot wrap. -/
theorem encoder_sample_sim (p : encoder_pos_state_t) (d : encoder_delta_state_t)
    (valA valB : Bool) (h : encoder_state_rel p d) :
    encoder_state_sim (encoder_sample_pos p valA valB)
      (encoder_sample_delta d valA valB) := by
  obtain ⟨⟨hprev, hdiff⟩, hb⟩ := h
  have ht := rotary_table_abs_le (d.prev * 4 + ((cond valA 1 0) * 2 + cond valB 1 0))
  constructor
  · simp [encoder_sample_pos, encoder_sample_delta, hprev]
  · simp only [encoder_sample_pos, encoder_sample_delta, hprev]
    rw [int8_of_int_eq _ (by omega) (by omega)]
    omega

/-- The position-variant clockwise loop agrees with the delta-variant
loop run on the difference. -/
theorem encoder_emit_cw_pos_eq (position reported : Int) :
    encoder_emit_cw_pos position reported =
      ((encoder_emit_cw (position - reported)).1,
       position - (encoder_emit_cw (position - reported)).2) := by
  rw [encoder_emit_cw_pos, encoder_emit_cw]
  by_cases h : 4 ≤ position - reported
  · rw [dif_pos h, dif_pos h]
    have hik := encoder_emit_cw_pos_eq position (reported + 4)
    have harg : position - (reported + 4) = position - reported - 4 := by ring
    rw [hik, harg]
  · rw [dif_neg h, dif_neg h]
    rw [Prod.mk.injEq]
    exact ⟨rfl, by ring⟩
termination_by (position - reported).toNat
decreasing_by
  simp_wf
  omega

/-- The position-variant counter-clockwise loop agrees with the
delta-variant loop run on the difference. -/
theorem encoder_emit_ccw_pos_eq (position reported : Int) :
    encoder_emit_ccw_pos position reported =
      ((encoder_emit_ccw (position - reported)).1,
       position - (encoder_emit_ccw (position - reported)).2) := by
  rw [encoder_emit_ccw_pos, encoder_emit_ccw]
  by_cases h : position - reported ≤ -4
  · rw [dif_pos h, dif_pos h]
    have hik := encoder_emit_ccw_pos_eq position (reported - 4)
    have harg : position - (reported - 4) = position - reported + 4 := by ring
    rw [hik, harg]
  · rw [dif_neg h, dif_neg h]
    rw [Prod.mk.injEq]
    exact ⟨rfl, by ring⟩
termination_by (reported - position).toNat
decreasing_by
  simp_wf
  omega

/-- The position-variant event-check agrees with the delta-variant
event-check run on the difference. -/
theorem encoder_check_pos_eq (position reported : Int) :
    encoder_check_pos position reported =
      ((encoder_check_delta (position - reported)).1,
       position - (encoder_check_delta (position - reported)).2) := by
  simp only [encoder_check_pos, encoder_check_delta]
  rw [encoder_emit_cw_pos_eq, encoder_emit_ccw_pos_eq]
  have harg : position - (position - (encoder_emit_cw (position - reported)).2) =
      (encoder_emit_cw (position - reported)).2 := by ring
  rw [harg]

/-- The event-check always leaves a residue of magnitude at most 3. -/
theorem encoder_check_delta_residue (d : Int) :
    (encoder_check_delta d).2.natAbs ≤ 3 := by
  rcases le_or_lt 0 d with h | h
  · rw [encoder_check_delta_nonneg d h]
    simp only
    omega
  · rw [encoder_check_delta_nonpos d (by omega)]
    simp only
    omega

/-- The sampling pass preserves the simulation pointwise. -/
theorem encoder_sample_map_sim (ps : List encoder_pos_state_t)
    (ds : List encoder_delta_state_t) (samples : List (Bool × Bool))
    (h : List.Forall₂ encoder_state_rel ps ds) :
    List.Forall₂ encoder_state_sim
      ((ps.zip samples).map (fun p => encoder_sample_pos p.1 p.2.1 p.2.2))
      ((ds.zip samples).map (fun p => encoder_sample_delta p.1 p.2.1 p.2.2)) := by
  induction h generalizing samples with
  | nil => simp
  | cons hpd hrest ih =>
      cases samples with
      | nil => simp
      | cons s ss =>
          simp only [List.zip_cons_cons, List.map_cons]
          exact List.Forall₂.cons (encoder_sample_sim _ _ s.1 s.2 hpd) (ih ss)

/-- The event-check loops of the two variants agree on simulated
states and re-establish the bounded relation. -/
theorem encoder_go_rel (i0 : Nat) (ps : List encoder_pos_state_t)
    (ds : List encoder_delta_state_t)
    (h : List.Forall₂ encoder_state_sim ps ds) :
    (encoder_update_pos_go i0 ps).1 = (encoder_update_delta_go i0 ds).1 ∧
    List.Forall₂ encoder_state_rel (encoder_update_pos_go i0 ps).2
      (encoder_update_delta_go i0 ds).2 := by
  induction h generalizing i0 with
  | nil => simp [encoder_update_pos_go, encoder_update_delta_go]
  | @cons a b l1 l2 hab hrest ih =>
      obtain ⟨hprev, hdiff⟩ := hab
      constructor
      · simp only [encoder_update_pos_go, encoder_update_delta_go]
        rw [encoder_check_pos_eq, hdiff, (ih (i0 + 1)).1]
      · simp only [encoder_update_pos_go, encoder_update_delta_go]
        refine List.Forall₂.cons ⟨⟨hprev, ?_⟩, ?_⟩ (ih (i0 + 1)).2
        · simp only [encoder_check_pos_eq, hdiff]
          ring
        · simp only
          exact encoder_check_delta_residue b.delta

/-- One encoder_update tick of the two variants: identical events,
and the bounded relation holds again afterwards. -/
theorem encoder_update_rel (ps : List encoder_pos_state_t)
    (ds : List encoder_delta_state_t) (samples : List (Bool × Bool))
    (h : List.Forall₂ encoder_state_rel ps ds) :
    (encoder_update_pos ps samples).1 = (encoder_update_delta ds samples).1 ∧
    List.Forall₂ encoder_state_rel (encoder_update_pos ps samples).2
      (encoder_update_delta ds samples).2 := by
  have hs := encoder_sample_map_sim ps ds samples h
  simpa only [encoder_update_pos, encoder_update_delta] using encoder_go_rel 0 _ _ hs

/-- Related states produce identical per-tick event traces forever. -/
theorem encoder_run_rel (ps : List encoder_pos_state_t)
    (ds : List encoder_delta_state_t)
    (h : List.Forall₂ encoder_state_rel ps ds)
    (ticks : List (List (Bool × Bool))) :
    encoder_run_pos ps ticks = encoder_run_delta ds ticks := by
  induction ticks generalizing ps ds with
  | nil => rfl
  | cons t rest ih =>
      have hu := encoder_update_rel ps ds t h
      simp only [encoder_run_pos, encoder_run_delta, hu.1]
      rw [ih _ _ hu.2]

/-- Claim C3: started from the same initial pin samples, the
absolute-position variant and the delta-counter variant of the encoder
engine emit exactly the same sequence of (index, clockwise) events, in
the same order, on every tick, for every sequence of pin samples. -/
theorem C3_encoder_variants_equivalent (prevs : List Nat)
    (ticks : List (List (Bool × Bool))) :
    encoder_run_pos (encoder_init_pos prevs) ticks =
      encoder_run_delta (encoder_init_delta prevs) ticks := by
  apply encoder_run_rel
  induction prevs with
  | nil => simp [encoder_init_pos, encoder_init_delta]
  | cons p rest ih =>
      simp only [encoder_init_pos, encoder_init_delta, List.map_cons]
      exact List.Forall₂.cons ⟨⟨rfl, by simp⟩, by simp⟩ ih

/-- Chord accumulators of the buttons_update loop: member-flag
disjunction and member-implies-active conjunction. -/
theorem buttons_update_go_chord (i0 : Nat)
    (rows : List (button_binding_t × Bool × Bool)) :
    (buttons_update_go i0 rows).has_bootloader_chord =
      rows.any (fun r => r.1.bootloader_chord_member) ∧
    (buttons_update_go i0 rows).bootloader_chord_candidate =
      rows.all (fun r => !r.1.bootloader_chord_member || button_active r.1 r.2.2) := by
  induction rows generalizing i0 with
  | nil => simp [buttons_update_go]
  | cons r rest ih =>
      obtain ⟨ih1, ih2⟩ := ih (i0 + 1)
      constructor
      · simp only [buttons_update_go, List.any_cons, ih1]
      · simp only [buttons_update_go, List.all_cons, ih2]
        cases hm : r.1.bootloader_chord_member <;> simp

/-- Claim C4: a buttons_update tick triggers bootloader entry exactly
when at least one tracked button is flagged bootloader_chord_member
and every button so flagged samples active in that same tick; in
particular with no chord member it never triggers. -/
theorem C4_bootloader_chord_trigger :
    ∀ (bindings : List button_binding_t) (states levels : List Bool),
      (buttons_update bindings states levels).2.2 = true ↔
        ((∃ r ∈ bindings.zip (states.zip levels), r.1.bootloader_chord_member = true) ∧
         (∀ r ∈ bindings.zip (states.zip levels), r.1.bootloader_chord_member = true →
            button_active r.1 r.2.2 = true)) := by
  intro bindings states levels
  simp only [buttons_update]
  rw [Bool.and_eq_true, (buttons_update_go_chord 0 _).1, (buttons_update_go_chord 0 _).2]
  rw [List.any_eq_true, List.all_eq_true]
  constructor
  · rintro ⟨⟨r, hr, hm⟩, hall⟩
    refine ⟨⟨r, hr, hm⟩, fun r' hr' hm' => ?_⟩
    have := hall r' hr'
    rw [hm'] at this
    simpa using this
  · rintro ⟨⟨r, hr, hm⟩, hall⟩
    refine ⟨⟨r, hr, hm⟩, fun r' hr' => ?_⟩
    cases hm' : r'.1.bootloader_chord_member with
    | false => simp
    | true => simpa using hall r' hr' hm'

theorem C4_witness :
    (buttons_update sample_button_bindings [false, false, false, false]
       [false, false, false, false]).2.2 = true :=
  (C4_bootloader_chord_trigger sample_button_bindings
     [false, false, false, false] [false, false, false, false]).mpr
    ⟨by decide, by decide⟩

/-- Every event buttons_setup_go fires carries an index at least the
starting loop index. -/
theorem buttons_setup_go_index_ge (i0 : Nat)
    (rows : List (button_binding_t × Bool)) :
    ∀ e ∈ (buttons_setup_go i0 rows).2, i0 ≤ e.1 := by
  induction rows generalizing i0 with
  | nil => simp [buttons_setup_go]
  | cons r rest ih =>
      intro e he
      simp only [buttons_setup_go, List.mem_append] at he
      rcases he with he | he
      · by_cases ha : button_active r.1 r.2 = true
        · simp only [ha, if_true, List.mem_singleton] at he
          rw [he]
        · simp [ha] at he
      · exact Nat.le_trans (by omega) (ih (i0 + 1) e he)

/-- The states buttons_setup_go stores are the decoded active levels. -/
theorem buttons_setup_go_states (i0 : Nat)
    (rows : List (button_binding_t × Bool)) :
    (buttons_setup_go i0 rows).1 = rows.map (fun r => button_active r.1 r.2) := by
  induction rows generalizing i0 with
  | nil => simp [buttons_setup_go]
  | cons r rest ih => simp [buttons_setup_go, ih]

/-- Event counts of buttons_setup_go: one Press for each initially
active button, nothing otherwise. -/
theorem buttons_setup_go_count (rows : List (button_binding_t × Bool))
    (i0 k : Nat) (hk : k < rows.length) (mode : hid_trigger_mode_t) :
    (buttons_setup_go i0 rows).2.count (i0 + k, mode) =
      (if button_active (rows.get ⟨k, hk⟩).1 (rows.get ⟨k, hk⟩).2 = true ∧
          mode = hid_trigger_mode_t.press then 1 else 0) := by
  induction rows generalizing i0 k with
  | nil => simp at hk
  | cons r rest ih =>
      cases k with
      | zero =>
          rcases r with ⟨b, level⟩
          simp only [buttons_setup_go, List.count_append, List.get_cons_zero,
            Nat.add_zero]
          have hrest : (buttons_setup_go (i0 + 1) rest).2.count (i0, mode) = 0 := by
            rw [List.count_eq_zero]
            intro hmem
            have h1 := buttons_setup_go_index_ge (i0 + 1) rest _ hmem
            have h2 : ((i0, mode) : Nat × hid_trigger_mode_t).1 = i0 := rfl
            omega
          rw [hrest, Nat.add_zero]
          by_cases ha : button_active b level = true
          · rw [if_pos ha]
            cases mode <;> simp [List.count_cons, ha]
          · rw [if_neg ha]
            simp [ha]
      | succ k' =>
          simp only [buttons_setup_go, List.count_append]
          have hhead : (if button_active r.1 r.2 = true
              then [(i0, hid_trigger_mode_t.press)] else []).count
                (i0 + (k' + 1), mode) = 0 := by
            split_ifs
            · rw [List.count_eq_zero]
              intro hmem
              simp only [List.mem_singleton, Prod.mk.injEq] at hmem
              omega
            · rfl
          rw [hhead]
          have h3 : i0 + 1 + k' = i0 + (k' + 1) := by omega
          have ih2 := ih (i0 + 1) k' (by simpa using Nat.lt_of_succ_lt_succ hk)
          rw [h3] at ih2
          rw [Nat.zero_add, ih2]
          simp [List.get_cons_succ]

/-- Every event buttons_update_go fires carries an index at least the
starting loop index. -/
theorem buttons_update_go_index_ge (i0 : Nat)
    (rows : List (button_binding_t × Bool × Bool)) :
    ∀ e ∈ (buttons_update_go i0 rows).events, i0 ≤ e.1 := by
  induction rows generalizing i0 with
  | nil => simp [buttons_update_go]
  | cons r rest ih =>
      intro e he
      simp only [buttons_update_go, List.mem_append] at he
      rcases he with he | he
      · split_ifs at he with hd hm
        · simp only [List.mem_singleton] at he
          rw [he]
        · simp only [List.mem_singleton] at he
          rw [he]
        · simp at he
      · exact Nat.le_trans (by omega) (ih (i0 + 1) e he)

/-- The states buttons_update_go stores are the decoded active levels. -/
theorem buttons_update_go_states (i0 : Nat)
    (rows : List (button_binding_t × Bool × Bool)) :
    (buttons_update_go i0 rows).states =
      rows.map (fun r => button_active r.1 r.2.2) := by
  induction rows generalizing i0 with
  | nil => simp [buttons_update_go]
  | cons r rest ih => simp [buttons_update_go, ih]

/-- Event counts of buttons_update_go: one event per button whose
sampled active state differs from the stored state, a Press when it
became active and a Release when it became inactive. -/
theorem buttons_update_go_count (rows : List (button_binding_t × Bool × Bool))
    (i0 k : Nat) (hk : k < rows.length) (mode : hid_trigger_mode_t) :
    (buttons_update_go i0 rows).events.count (i0 + k, mode) =
      (if (rows.get ⟨k, hk⟩).2.1 ≠
            button_active (rows.get ⟨k, hk⟩).1 (rows.get ⟨k, hk⟩).2.2 ∧
          mode = (if button_active (rows.get ⟨k, hk⟩).1 (rows.get ⟨k, hk⟩).2.2
                  then hid_trigger_mode_t.press else hid_trigger_mode_t.release)
       then 1 else 0) := by
  induction rows generalizing i0 k with
  | nil => simp at hk
  | cons r rest ih =>
      cases k with
      | zero =>
          rcases r with ⟨b, stored, level⟩
          simp only [buttons_update_go, List.count_append, List.get_cons_zero,
            Nat.add_zero]
          have hrest : (buttons_update_go (i0 + 1) rest).events.count (i0, mode) = 0 := by
            rw [List.count_eq_zero]
            intro hmem
            have h1 := buttons_update_go_index_ge (i0 + 1) rest _ hmem
            have h2 : ((i0, mode) : Nat × hid_trigger_mode_t).1 = i0 := rfl
            omega
          rw [hrest, Nat.add_zero]
          by_cases hd : stored ≠ button_active b level
          · rw [if_pos hd]
            cases hb : button_active b level <;> cases mode <;>
              simp_all [List.count_cons]
          · rw [if_neg hd]
            simp only at hd
            simp [hd]
      | succ k' =>
          simp only [buttons_update_go, List.count_append]
          have hhead : (if r.2.1 ≠ button_active r.1 r.2.2 then
              [(i0, if button_active r.1 r.2.2 then hid_trigger_mode_t.press
                    else hid_trigger_mode_t.release)] else []).count
                (i0 + (k' + 1), mode) = 0 := by
            split_ifs
            · rw [List.count_eq_zero]
              intro hmem
              simp only [List.mem_singleton, Prod.mk.injEq] at hmem
              omega
            · rw [List.count_eq_zero]
              intro hmem
              simp only [List.mem_singleton, Prod.mk.injEq] at hmem
              omega
            · rfl
          rw [hhead]
          have h3 : i0 + 1 + k' = i0 + (k' + 1) := by omega
          have ih2 := ih (i0 + 1) k' (by simpa using Nat.lt_of_succ_lt_succ hk)
          rw [h3] at ih2
          rw [Nat.zero_add, ih2]
          simp [List.get_cons_succ]

/-- Claim C5: buttons_setup stores the decoded active levels and
fires exactly one Press for each initially active button and no other
event; on a buttons_update tick a button fires exactly one event when
its sampled active state differs from the stored state, a Press when
it became active and a Release when it became inactive, and the stored
states become the samples; an inactive-active-inactive level flip
across two ticks produces exactly one Press then one Release. -/
theorem C5_button_edge_events :
    (∀ (bindings : List button_binding_t) (levels : List Bool),
       (buttons_setup bindings levels).1 =
         (bindings.zip levels).map (fun r => button_active r.1 r.2)) ∧
    (∀ (bindings : List button_binding_t) (levels : List Bool) (k : Nat)
       (hk : k < (bindings.zip levels).length) (mode : hid_trigger_mode_t),
       (buttons_setup bindings levels).2.count (k, mode) =
         (if button_active ((bindings.zip levels).get ⟨k, hk⟩).1
              ((bindings.zip levels).get ⟨k, hk⟩).2 = true ∧
             mode = hid_trigger_mode_t.press then 1 else 0)) ∧
    (∀ (bindings : List button_binding_t) (states levels : List Bool),
       (buttons_update bindings states levels).2.1 =
         (bindings.zip (states.zip levels)).map (fun r => button_active r.1 r.2.2)) ∧
    (∀ (bindings : List button_binding_t) (states levels : List Bool) (k : Nat)
       (hk : k < (bindings.zip (states.zip levels)).length) (mode : hid_trigger_mode_t),
       (buttons_update bindings states levels).1.count (k, mode) =
         (if ((bindings.zip (states.zip levels)).get ⟨k, hk⟩).2.1 ≠
               button_active ((bindings.zip (states.zip levels)).get ⟨k, hk⟩).1
                 ((bindings.zip (states.zip levels)).get ⟨k, hk⟩).2.2 ∧
             mode = (if button_active ((bindings.zip (states.zip levels)).get ⟨k, hk⟩).1
                        ((bindings.zip (states.zip levels)).get ⟨k, hk⟩).2.2 = true
                     then hid_trigger_mode_t.press else hid_trigger_mode_t.release)
          then 1 else 0)) ∧
    (buttons_update [sample_plain_button] [false] [true] =
       ([(0, hid_trigger_mode_t.press)], [true], false) ∧
     buttons_update [sample_plain_button] [true] [false] =
       ([(0, hid_trigger_mode_t.release)], [false], false)) := by
  refine ⟨?_, ?_, ?_, ?_, by decide, by decide⟩
  · intro bindings levels
    exact buttons_setup_go_states 0 _
  · intro bindings levels k hk mode
    have h := buttons_setup_go_count (bindings.zip levels) 0 k hk mode
    simpa only [Nat.zero_add, buttons_setup] using h
  · intro bindings states levels
    exact buttons_update_go_states 0 _
  · intro bindings states levels k hk mode
    have h := buttons_update_go_count (bindings.zip (states.zip levels)) 0 k hk mode
    simpa only [Nat.zero_add, buttons_update] using h

theorem C5_witness :
    (buttons_setup [sample_plain_button] [true]).2.count
      (0, hid_trigger_mode_t.press) = 1 ∧
    (buttons_setup [sample_plain_button] [true]).2.count
      (0, hid_trigger_mode_t.release) = 0 := by
  constructor
  · have h := C5_button_edge_events.2.1 [sample_plain_button] [true] 0 (by decide)
      hid_trigger_mode_t.press
    simpa using h
  · have h := C5_button_edge_events.2.1 [sample_plain_button] [true] 0 (by decide)
      hid_trigger_mode_t.release
    simpa using h

/-- Claim C9, as stated, fails on the code: with
breathing_min_percent 90, after 12 step intervals the percentage is
91, not 100-12 clamped at 90, and between intervals 10 and 11 the
percentage changes by 0, not by exactly 1, because the state dwells
one interval at the bound while the direction flips. -/
theorem C9_counterexample :
    ((breath_step 90)^[12] breath_init).1 ≠ max (100 - 12) 90 ∧
    ((breath_step 90)^[11] breath_init).1 = ((breath_step 90)^[10] breath_init).1 := by
  decide

/-- Claim C9 amended: starting at 100 percent descending, after N
step intervals with N at most 100 - min the percentage is 100 - N
(hence clamped at min); at the minimum the direction reverses during
one interval with the percentage unchanged; it then increases by 1 per
interval back to 100, where it again dwells one interval, completing a
full period of 2 * (100 - min) + 2 intervals; the percentage never
leaves the range from min to 100. -/
theorem C9_breathing_triangle (m : Nat) (hm : m ≤ 100) :
    (∀ N, N ≤ 100 - m → (breath_step m)^[N] breath_init = (100 - N, true)) ∧
    ((breath_step m)^[100 - m + 1] breath_init = (m, false)) ∧
    (∀ k, k ≤ 100 - m →
       (breath_step m)^[100 - m + 1 + k] breath_init = (m + k, false)) ∧
    ((breath_step m)^[2 * (100 - m) + 2] breath_init = breath_init) ∧
    (∀ N, m ≤ ((breath_step m)^[N] breath_init).1 ∧
          ((breath_step m)^[N] breath_init).1 ≤ 100) := by
  have hdesc : ∀ N, N ≤ 100 - m → (breath_step m)^[N] breath_init = (100 - N, true) := by
    intro N
    induction N with
    | zero => intro _; simp [breath_init]
    | succ N ih =>
        intro hN
        rw [Function.iterate_succ_apply', ih (by omega)]
        simp only [breath_step]
        rw [if_pos trivial, if_pos (by omega)]
        rw [Prod.mk.injEq]
        exact ⟨by omega, rfl⟩
  have hturn : (breath_step m)^[100 - m + 1] breath_init = (m, false) := by
    rw [Function.iterate_succ_apply', hdesc (100 - m) (by omega)]
    have h1 : 100 - (100 - m) = m := by omega
    rw [h1]
    simp only [breath_step]
    rw [if_pos trivial, if_neg (by omega)]
  have hasc : ∀ k, k ≤ 100 - m →
      (breath_step m)^[100 - m + 1 + k] breath_init = (m + k, false) := by
    intro k
    induction k with
    | zero => intro _; simpa using hturn
    | succ k ih =>
        intro hk
        have hidx : 100 - m + 1 + (k + 1) = (100 - m + 1 + k) + 1 := rfl
        rw [hidx, Function.iterate_succ_apply', ih (by omega)]
        simp only [breath_step]
        rw [if_neg (by simp), if_pos (by omega)]
        rw [Prod.mk.injEq]
        exact ⟨by omega, rfl⟩
  refine ⟨hdesc, hturn, hasc, ?_, ?_⟩
  · have hidx : 2 * (100 - m) + 2 = (100 - m + 1 + (100 - m)) + 1 := by omega
    rw [hidx, Function.iterate_succ_apply', hasc (100 - m) (by omega)]
    have h1 : m + (100 - m) = 100 := by omega
    rw [h1]
    simp only [breath_step]
    rw [if_neg (by simp), if_neg (by omega)]
    rfl
  · intro N
    induction N with
    | zero =>
        constructor
        · simpa [breath_init] using hm
        · simp [breath_init]
    | succ N ih =>
        rw [Function.iterate_succ_apply']
        rcases hst : (breath_step m)^[N] breath_init with ⟨p, dir⟩
        rw [hst] at ih
        simp only at ih
        obtain ⟨ih1, ih2⟩ := ih
        cases dir <;> simp only [breath_step] <;> split_ifs <;>
          refine ⟨by simp; omega, by simp; omega⟩

theorem C9_witness :
    (90 : Nat) ≤ 100 ∧
    (breath_step 90)^[10] breath_init = (100 - 10, true) ∧
    (breath_step 90)^[11] breath_init = (90, false) := by
  refine ⟨by decide, (C9_breathing_triangle 90 (by decide)).1 10 (by decide), ?_⟩
  have h := (C9_breathing_triangle 90 (by decide)).2.1
  simpa using h
